import Mathlib

/-!
Verification of the `w5::ThreadPool` component of Edge-AI-Genesis-2026
(`src/01_Linux_CPP_Foundations/w5_thread_pool/thread_pool.hpp`, which holds
two variants of the same class: a C++11 variant and a C++20 variant).

The pool is embedded as a state machine at the quiescent points of its
single mutex `queue_mutex_`:

* the type-erased task queue `tasks_` becomes a FIFO `List Task`, where a
  `Task` records the id of its associated future and the outcome of
  invoking the bound callable (`Except.ok v` for a normal return of `v`,
  `Except.error e` for a raised exception of message `e`, which the
  `std::packaged_task` wrapper captures at the invocation boundary);
* the per-submission `std::future` shared states become an association
  list `futures : List (Nat × FutureState)` with states `pending`,
  `value v` and `error e`;
* `active_tasks_` becomes the length of the `inflight` list of tasks that
  a worker has dequeued (lines 192-196) but not yet finished;
* the `stop_` flag (C++11) and `stop_source_.stop_requested()` (C++20)
  become the boolean `stopped`;
* `workers_` is modelled by its size `workers : Nat`;
* `log` records the ids of executed tasks in execution order (a history
  variable, not a C++ member, used to state ordering and exactly-once
  properties).

Worker-loop execution (`WorkerLoop`, C++11 lines 174-213 and C++20 lines
738-858: pop the queue front, run the task, resolve its future) is modelled
by `execTask`/`drainList`/`drainQueue` for a full drain and by the
small-step relation `PoolStep` for interleaved histories.
-/

namespace w5

/-- Shared state of a `std::future`: `Pending` until the `packaged_task`
runs, then either the returned value or the captured exception. -/
inductive FutureState where
  | pending
  | value (v : Int)
  | error (e : String)
  deriving DecidableEq, Repr

/-- Decidable equality of task outcomes. -/
instance : DecidableEq (Except String Int) := fun a b =>
  match a, b with
  | Except.ok x, Except.ok y =>
      if h : x = y then Decidable.isTrue (by rw [h])
      else Decidable.isFalse (by intro hc; cases hc; exact h rfl)
  | Except.ok _, Except.error _ => Decidable.isFalse (by intro hc; cases hc)
  | Except.error _, Except.ok _ => Decidable.isFalse (by intro hc; cases hc)
  | Except.error x, Except.error y =>
      if h : x = y then Decidable.isTrue (by rw [h])
      else Decidable.isFalse (by intro hc; cases hc; exact h rfl)

/-- A queue element: the id of its future together with the outcome of
invoking the bound callable (value returned, or exception raised). -/
structure Task where
  id : Nat
  body : Except String Int
  deriving DecidableEq, Repr

/-- The map from future ids to `std::future` shared states. -/
abbrev FutureMap := List (Nat × FutureState)

/-- Look up the shared state of the future with the given id. -/
def lookupFuture : FutureMap → Nat → Option FutureState
  | [], _ => none
  | p :: rest, i => if p.1 = i then some p.2 else lookupFuture rest i

/-- Resolve the future with the given id to state `v` (the write that
`(*task)()` performs into the shared state). -/
def setFuture (fs : FutureMap) (i : Nat) (v : FutureState) : FutureMap :=
  fs.map (fun p => if p.1 = i then (p.1, v) else p)

/-- State of a `w5::ThreadPool` at a quiescent point of `queue_mutex_`. -/
structure ThreadPool where
  tasks : List Task
  inflight : List Task
  futures : FutureMap
  log : List Nat
  stopped : Bool
  workers : Nat
  nextId : Nat
  deriving DecidableEq, Repr

/-- The constructor (C++11 lines 43-54, C++20 lines 335-369): a
`num_threads` of 0 is coerced to 1, then that many workers are spawned. -/
def mkPool (numThreads : Nat) : ThreadPool :=
  { tasks := [], inflight := [], futures := [], log := [],
    stopped := false,
    workers := if numThreads = 0 then 1 else numThreads,
    nextId := 0 }

/-- Constructing with the defaulted argument
`num_threads = std::thread::hardware_concurrency()`: the detected hardware
parallelism (possibly 0 when detection fails) is passed to the constructor. -/
def mkPoolDefault (hardwareConcurrency : Nat) : ThreadPool :=
  mkPool hardwareConcurrency

/-- The error thrown by `Submit` on a stopped pool
(`std::runtime_error("Cannot submit task to stopped ThreadPool")`). -/
inductive SubmitError where
  | poolStopped
  deriving DecidableEq, Repr

/-- Invoking the `std::packaged_task`: a normal return is stored as a
value, a raised exception is captured and stored as an error. The result
is never `pending`. -/
def runBody : Except String Int → FutureState
  | .ok v => .value v
  | .error e => .error e

/-- The successful path of `Submit`: bind the callable into a fresh task,
register its pending future, and enqueue at the back of `tasks_`. -/
def submitState (s : ThreadPool) (body : Except String Int) : ThreadPool :=
  { s with tasks := s.tasks ++ [⟨s.nextId, body⟩],
           futures := s.futures ++ [(s.nextId, FutureState.pending)],
           nextId := s.nextId + 1 }

/-- Submission (`Submit`, C++11 lines 82-112, C++20 lines 460-534): under the queue
lock, if the pool is stopped the call throws and nothing is enqueued;
otherwise the task is enqueued and the associated future id is returned. -/
def Submit (s : ThreadPool) (body : Except String Int) :
    Except SubmitError (ThreadPool × Nat) :=
  if s.stopped then Except.error SubmitError.poolStopped
  else Except.ok (submitState s body, s.nextId)

/-- Submit a sequence of callables in order (each succeeding, as `Submit`
does on a non-stopped pool). -/
def submitAll (s : ThreadPool) (bs : List (Except String Int)) : ThreadPool :=
  bs.foldl submitState s

/-- One complete worker cycle on a dequeued task: run it and resolve its
future (WorkerLoop body, with the take and finish halves fused). -/
def execTask (s : ThreadPool) (t : Task) : ThreadPool :=
  { s with futures := setFuture s.futures t.id (runBody t.body),
           log := s.log ++ [t.id] }

/-- Execute a list of tasks front to back. -/
def drainList : List Task → ThreadPool → ThreadPool
  | [], s => s
  | t :: rest, s => drainList rest (execTask s t)

/-- Workers drain the queue to emptiness, popping the front each time
(C++11 exit condition lines 187-189; C++20 drain loop lines 835-857). -/
def drainQueue (s : ThreadPool) : ThreadPool :=
  drainList s.tasks { s with tasks := [] }

/-- The finish half of a worker cycle for a task previously taken into
`inflight`: resolve the future, log the execution, decrement the active
count. -/
def finishTask (s : ThreadPool) (t : Task) : ThreadPool :=
  { s with inflight := s.inflight.erase t,
           futures := setFuture s.futures t.id (runBody t.body),
           log := s.log ++ [t.id] }

/-- Joining the workers also waits for every in-flight task to complete. -/
def finishAllInflight (s : ThreadPool) : ThreadPool :=
  s.inflight.foldl finishTask s

/-- The C++11 variant of `Shutdown` (lines 121-139): an early return if `stop_`
is already set; otherwise set `stop_`, wake the workers, and join them —
which completes the in-flight tasks and drains the remaining queue. The
`workers_` vector is left intact. -/
def Shutdown11 (s : ThreadPool) : ThreadPool :=
  if s.stopped then s
  else drainQueue (finishAllInflight { s with stopped := true })

/-- The C++20 variant of `Shutdown` (lines 633-645): `request_stop()` (idempotent),
wake the workers, then `workers_.clear()` — destroying each `jthread` joins
it, which completes in-flight tasks and drains the remaining queue, and
leaves the vector empty. -/
def Shutdown20 (s : ThreadPool) : ThreadPool :=
  { drainQueue (finishAllInflight { s with stopped := true }) with workers := 0 }

/-- Query `GetThreadCount` (C++11 line 144, C++20 line 655): `workers_.size()`. -/
def GetThreadCount (s : ThreadPool) : Nat := s.workers

/-- Query `GetPendingTaskCount`: size of the task queue. -/
def GetPendingTaskCount (s : ThreadPool) : Nat := s.tasks.length

/-- Query `GetActiveTaskCount`: the `active_tasks_` counter, i.e. the number of
dequeued-but-unfinished tasks. -/
def GetActiveTaskCount (s : ThreadPool) : Nat := s.inflight.length

/-- Query `IsStopped`: the stop flag. -/
def IsStopped (s : ThreadPool) : Bool := s.stopped

/-- The wait predicate of `WaitForAll` (C++11 lines 158-163, C++20 lines
698-704): `tasks_.empty() && active_tasks_ == 0`. -/
def waitForAllPred (s : ThreadPool) : Bool :=
  s.tasks.isEmpty && (GetActiveTaskCount s == 0)

/-- The observable content of `future.get()` at quiescence: `none` while
the future is pending or absent (the caller would block), otherwise the
stored value, or the captured exception re-raised. -/
def futureGet (s : ThreadPool) (i : Nat) : Option (Except String Int) :=
  match lookupFuture s.futures i with
  | some (FutureState.value v) => some (Except.ok v)
  | some (FutureState.error e) => some (Except.error e)
  | _ => none

/-- Well-formedness of a pool state: queued task ids are distinct, ids are
below the allocation counter, every queued task has a pending future, and
no queued task has already been executed or taken in flight. Holds for
every state reachable through the public interface. -/
def WF (s : ThreadPool) : Prop :=
  (s.tasks.map Task.id).Nodup ∧
  (∀ t ∈ s.tasks, t.id < s.nextId) ∧
  (∀ p ∈ s.futures, p.1 < s.nextId) ∧
  (∀ t ∈ s.tasks, lookupFuture s.futures t.id = some FutureState.pending) ∧
  (∀ i ∈ s.log, i < s.nextId) ∧
  (∀ t ∈ s.inflight, t.id < s.nextId) ∧
  (∀ t ∈ s.tasks, t.id ∉ s.log) ∧
  (∀ t ∈ s.tasks, t.id ∉ s.inflight.map Task.id)

/-- Well-formedness is decidable, so it can be checked on concrete states. -/
instance (s : ThreadPool) : Decidable (WF s) := by
  unfold WF; infer_instance

/-- Small-step transitions of the pool under its single mutex: a
successful submission, a worker taking the queue front (lines 192-196),
a worker finishing its task (lines 200-203), and the stop signal. -/
inductive PoolStep : ThreadPool → ThreadPool → Prop where
  | submit (s : ThreadPool) (body : Except String Int) (h : s.stopped = false) :
      PoolStep s (submitState s body)
  | take (s : ThreadPool) (t : Task) (rest : List Task) (h : s.tasks = t :: rest) :
      PoolStep s { s with tasks := rest, inflight := s.inflight ++ [t] }
  | finish (s : ThreadPool) (t : Task) (h : t ∈ s.inflight) :
      PoolStep s (finishTask s t)
  | stop (s : ThreadPool) :
      PoolStep s { s with stopped := true }

/-- States reachable from a freshly constructed pool of `n` workers. -/
def Reachable (n : Nat) (s : ThreadPool) : Prop :=
  Relation.ReflTransGen PoolStep (mkPool n) s

/-- Every pending future is backed by a task that is still queued or still
in flight — the invariant behind `WaitForAll`. -/
def Backed (s : ThreadPool) : Prop :=
  ∀ p ∈ s.futures, p.2 = FutureState.pending →
    (∃ t ∈ s.tasks, t.id = p.1) ∨ (∃ t ∈ s.inflight, t.id = p.1)

/-! ### Field-preservation lemmas for the drain and join operations -/

theorem drainList_workers (ts : List Task) (s : ThreadPool) :
    (drainList ts s).workers = s.workers := by
  induction ts generalizing s with
  | nil => rfl
  | cons t rest ih => simp [drainList, ih, execTask]

theorem drainList_stopped (ts : List Task) (s : ThreadPool) :
    (drainList ts s).stopped = s.stopped := by
  induction ts generalizing s with
  | nil => rfl
  | cons t rest ih => simp [drainList, ih, execTask]

theorem drainList_tasks (ts : List Task) (s : ThreadPool) :
    (drainList ts s).tasks = s.tasks := by
  induction ts generalizing s with
  | nil => rfl
  | cons t rest ih => simp [drainList, ih, execTask]

theorem drainList_inflight (ts : List Task) (s : ThreadPool) :
    (drainList ts s).inflight = s.inflight := by
  induction ts generalizing s with
  | nil => rfl
  | cons t rest ih => simp [drainList, ih, execTask]

theorem drainList_log (ts : List Task) (s : ThreadPool) :
    (drainList ts s).log = s.log ++ ts.map Task.id := by
  induction ts generalizing s with
  | nil => simp [drainList]
  | cons t rest ih => simp [drainList, ih, execTask]

theorem finishFold_workers (l : List Task) (s : ThreadPool) :
    (l.foldl finishTask s).workers = s.workers := by
  induction l generalizing s with
  | nil => rfl
  | cons t rest ih => simp [List.foldl, ih, finishTask]

theorem finishFold_stopped (l : List Task) (s : ThreadPool) :
    (l.foldl finishTask s).stopped = s.stopped := by
  induction l generalizing s with
  | nil => rfl
  | cons t rest ih => simp [List.foldl, ih, finishTask]

theorem finishFold_tasks (l : List Task) (s : ThreadPool) :
    (l.foldl finishTask s).tasks = s.tasks := by
  induction l generalizing s with
  | nil => rfl
  | cons t rest ih => simp [List.foldl, ih, finishTask]

theorem finishFold_log (l : List Task) (s : ThreadPool) :
    (l.foldl finishTask s).log = s.log ++ l.map Task.id := by
  induction l generalizing s with
  | nil => simp
  | cons t rest ih => simp [List.foldl, ih, finishTask]

theorem finishFold_inflight (l : List Task) (s : ThreadPool)
    (h : s.inflight = l) : (l.foldl finishTask s).inflight = [] := by
  induction l generalizing s with
  | nil => simpa using h.symm
  | cons t rest ih =>
      apply ih
      simp [finishTask, h, List.erase_cons_head]

theorem finishAllInflight_workers (s : ThreadPool) :
    (finishAllInflight s).workers = s.workers := finishFold_workers _ _

theorem finishAllInflight_stopped (s : ThreadPool) :
    (finishAllInflight s).stopped = s.stopped := finishFold_stopped _ _

theorem finishAllInflight_tasks (s : ThreadPool) :
    (finishAllInflight s).tasks = s.tasks := finishFold_tasks _ _

theorem finishAllInflight_log (s : ThreadPool) :
    (finishAllInflight s).log = s.log ++ s.inflight.map Task.id :=
  finishFold_log _ _

theorem finishAllInflight_inflight (s : ThreadPool) :
    (finishAllInflight s).inflight = [] := finishFold_inflight _ _ rfl

theorem drainQueue_workers (s : ThreadPool) :
    (drainQueue s).workers = s.workers := by
  simp [drainQueue, drainList_workers]

theorem drainQueue_stopped (s : ThreadPool) :
    (drainQueue s).stopped = s.stopped := by
  simp [drainQueue, drainList_stopped]

theorem drainQueue_tasks (s : ThreadPool) : (drainQueue s).tasks = [] := by
  simp [drainQueue, drainList_tasks]

theorem drainQueue_inflight (s : ThreadPool) :
    (drainQueue s).inflight = s.inflight := by
  simp [drainQueue, drainList_inflight]

theorem drainQueue_log (s : ThreadPool) :
    (drainQueue s).log = s.log ++ s.tasks.map Task.id := by
  simp [drainQueue, drainList_log]

/-! ### Shutdown lemmas shared by several claims -/

theorem shutdown11_stopped (s : ThreadPool) :
    (Shutdown11 s).stopped = true := by
  unfold Shutdown11
  by_cases h : s.stopped
  · simp [h]
  · simp [h, drainQueue_stopped, finishAllInflight_stopped]

theorem shutdown20_stopped (s : ThreadPool) :
    (Shutdown20 s).stopped = true := by
  simp [Shutdown20, drainQueue_stopped, finishAllInflight_stopped]

theorem shutdown11_workers (s : ThreadPool) :
    (Shutdown11 s).workers = s.workers := by
  unfold Shutdown11
  by_cases h : s.stopped
  · simp [h]
  · simp [h, drainQueue_workers, finishAllInflight_workers]

theorem shutdown20_workers (s : ThreadPool) : (Shutdown20 s).workers = 0 := by
  simp [Shutdown20]

theorem shutdown20_tasks (s : ThreadPool) : (Shutdown20 s).tasks = [] := by
  simp [Shutdown20, drainQueue_tasks]

theorem shutdown20_inflight (s : ThreadPool) :
    (Shutdown20 s).inflight = [] := by
  simp [Shutdown20, drainQueue_inflight, finishAllInflight_inflight]

theorem shutdown20_log (s : ThreadPool) :
    (Shutdown20 s).log = s.log ++ s.inflight.map Task.id ++ s.tasks.map Task.id := by
  simp [Shutdown20, drainQueue_log, finishAllInflight_log, finishAllInflight_tasks]

theorem shutdown11_tasks_run (s : ThreadPool) (h : s.stopped = false) :
    (Shutdown11 s).tasks = [] := by
  simp [Shutdown11, h, drainQueue_tasks]

theorem shutdown11_log_run (s : ThreadPool) (h : s.stopped = false) :
    (Shutdown11 s).log = s.log ++ s.inflight.map Task.id ++ s.tasks.map Task.id := by
  simp [Shutdown11, h, drainQueue_log, finishAllInflight_log, finishAllInflight_tasks]

theorem shutdown11_inflight_run (s : ThreadPool) (h : s.stopped = false) :
    (Shutdown11 s).inflight = [] := by
  simp [Shutdown11, h, drainQueue_inflight, finishAllInflight_inflight]

/-- Rebuilding a state with its own field values is the identity. -/
theorem setStopped_eq_self (s : ThreadPool) (h : s.stopped = true) :
    { s with stopped := true } = s := by
  cases s; simp_all

theorem setWorkers_eq_self (s : ThreadPool) (h : s.workers = 0) :
    { s with workers := 0 } = s := by
  cases s; simp_all

theorem setTasks_eq_self (s : ThreadPool) (h : s.tasks = []) :
    { s with tasks := [] } = s := by
  cases s; simp_all

/-- On an already-stopped, fully drained state the shutdown body is inert. -/
theorem finishAllInflight_eq_self (s : ThreadPool) (h : s.inflight = []) :
    finishAllInflight s = s := by
  unfold finishAllInflight
  rw [h]
  rfl

theorem drainQueue_eq_self (s : ThreadPool) (h : s.tasks = []) :
    drainQueue s = s := by
  unfold drainQueue
  rw [h, drainList, setTasks_eq_self s h]

/-- A `Shutdown` call on an already-stopped C++11 pool returns at once. -/
theorem shutdown11_of_stopped (s : ThreadPool) (h : s.stopped = true) :
    Shutdown11 s = s := by
  simp [Shutdown11, h]

/-! ### Future lookup lemmas -/

theorem lookup_setFuture_self (fs : FutureMap) (i : Nat) (v : FutureState)
    (h : lookupFuture fs i ≠ none) :
    lookupFuture (setFuture fs i v) i = some v := by
  induction fs with
  | nil => simp [lookupFuture] at h
  | cons p rest ih =>
      by_cases hp : p.1 = i
      · simp [setFuture, lookupFuture, hp]
      · simp only [lookupFuture, hp, if_false] at h
        simpa [setFuture, lookupFuture, hp] using ih h

theorem lookup_setFuture_ne (fs : FutureMap) (i j : Nat) (v : FutureState)
    (h : j ≠ i) :
    lookupFuture (setFuture fs i v) j = lookupFuture fs j := by
  induction fs with
  | nil => rfl
  | cons p rest ih =>
      show lookupFuture ((if p.1 = i then (p.1, v) else p) :: setFuture rest i v) j =
        lookupFuture (p :: rest) j
      by_cases hp : p.1 = i
      · have hpj : p.1 ≠ j := by rw [hp]; exact fun hc => h hc.symm
        rw [if_pos hp]
        show (if p.1 = j then some v else lookupFuture (setFuture rest i v) j) =
          lookupFuture (p :: rest) j
        rw [if_neg hpj, ih]
        show lookupFuture rest j = if p.1 = j then some p.2 else lookupFuture rest j
        rw [if_neg hpj]
      · rw [if_neg hp]
        show (if p.1 = j then some p.2 else lookupFuture (setFuture rest i v) j) =
          (if p.1 = j then some p.2 else lookupFuture rest j)
        by_cases hj : p.1 = j
        · rw [if_pos hj, if_pos hj]
        · rw [if_neg hj, if_neg hj, ih]

theorem lookup_setFuture_isSome (fs : FutureMap) (i j : Nat) (v : FutureState)
    (h : lookupFuture fs j ≠ none) :
    lookupFuture (setFuture fs i v) j ≠ none := by
  by_cases hji : j = i
  · rw [hji, lookup_setFuture_self fs i v (hji ▸ h)]
    simp
  · rw [lookup_setFuture_ne fs i j v hji]
    exact h

theorem lookup_append (fs gs : FutureMap) (i : Nat) :
    lookupFuture (fs ++ gs) i =
      match lookupFuture fs i with
      | some v => some v
      | none => lookupFuture gs i := by
  induction fs with
  | nil => simp [lookupFuture]
  | cons p rest ih =>
      by_cases hp : p.1 = i
      · simp [lookupFuture, hp]
      · simpa [lookupFuture, hp] using ih

theorem lookup_eq_none_of_lt (fs : FutureMap) (i : Nat)
    (h : ∀ p ∈ fs, p.1 < i) : lookupFuture fs i = none := by
  induction fs with
  | nil => rfl
  | cons p rest ih =>
      have hp : p.1 ≠ i := Nat.ne_of_lt (h p (List.mem_cons_self p rest))
      simp only [lookupFuture, hp, if_false]
      exact ih (fun q hq => h q (List.mem_cons_of_mem p hq))

/-! ### Resolution of futures by the worker drain -/

theorem lookup_drainList_not_mem (ts : List Task) (s : ThreadPool) (i : Nat)
    (h : i ∉ ts.map Task.id) :
    lookupFuture (drainList ts s).futures i = lookupFuture s.futures i := by
  induction ts generalizing s with
  | nil => rfl
  | cons t rest ih =>
      simp only [List.map_cons, List.mem_cons, not_or] at h
      rw [drainList, ih _ h.2, execTask]
      exact lookup_setFuture_ne _ _ _ _ h.1

theorem lookup_drainList_mem (ts : List Task) (s : ThreadPool) (t : Task)
    (ht : t ∈ ts) (hnd : (ts.map Task.id).Nodup)
    (hb : lookupFuture s.futures t.id ≠ none) :
    lookupFuture (drainList ts s).futures t.id = some (runBody t.body) := by
  induction ts generalizing s with
  | nil => cases ht
  | cons a rest ih =>
      rw [List.map_cons, List.nodup_cons] at hnd
      rcases List.mem_cons.mp ht with rfl | hmem
      · have hni : t.id ∉ rest.map Task.id := hnd.1
        rw [drainList, lookup_drainList_not_mem rest _ t.id hni, execTask]
        exact lookup_setFuture_self _ _ _ hb
      · rw [drainList]
        exact ih _ hmem hnd.2
          (lookup_setFuture_isSome _ _ _ _ hb)

theorem futureGet_drainQueue (s : ThreadPool) (t : Task)
    (ht : t ∈ s.tasks) (hnd : (s.tasks.map Task.id).Nodup)
    (hb : lookupFuture s.futures t.id ≠ none) :
    futureGet (drainQueue s) t.id = some t.body := by
  unfold drainQueue futureGet
  rw [lookup_drainList_mem s.tasks { s with tasks := [] } t ht hnd hb]
  cases t.body with
  | ok v => rfl
  | error e => rfl

/-! ### Well-formedness of the submit path -/

theorem submitState_tasks_nodup (s : ThreadPool) (b : Except String Int)
    (hwf : WF s) : ((submitState s b).tasks.map Task.id).Nodup := by
  obtain ⟨hnd, hlt, -, -, -, -, -, -⟩ := hwf
  simp only [submitState, List.map_append, List.map_cons, List.map_nil]
  apply List.Nodup.append hnd (List.nodup_singleton _)
  intro i hi hj
  rcases List.mem_map.mp hi with ⟨t, ht, rfl⟩
  rcases List.mem_singleton.mp hj with h
  exact absurd (h ▸ hlt t ht) (Nat.lt_irrefl _)

theorem lookup_submitState_new (s : ThreadPool) (b : Except String Int)
    (hwf : WF s) :
    lookupFuture (submitState s b).futures s.nextId =
      some FutureState.pending := by
  obtain ⟨-, -, hflt, -, -, -, -, -⟩ := hwf
  show lookupFuture (s.futures ++ [(s.nextId, FutureState.pending)]) s.nextId =
    some FutureState.pending
  rw [lookup_append, lookup_eq_none_of_lt s.futures s.nextId hflt]
  simp [lookupFuture]

/-! ### Submission sequences -/

theorem submitAll_log (s : ThreadPool) (bs : List (Except String Int)) :
    (submitAll s bs).log = s.log := by
  induction bs generalizing s with
  | nil => rfl
  | cons b rest ih =>
      show (submitAll (submitState s b) rest).log = s.log
      rw [ih]
      rfl

theorem submitAll_tasks_map (s : ThreadPool) (bs : List (Except String Int)) :
    (submitAll s bs).tasks.map Task.id =
      s.tasks.map Task.id ++ List.range' s.nextId bs.length := by
  induction bs generalizing s with
  | nil => simp [submitAll]
  | cons b rest ih =>
      show (submitAll (submitState s b) rest).tasks.map Task.id = _
      rw [ih]
      show (s.tasks ++ [(⟨s.nextId, b⟩ : Task)]).map Task.id ++
        List.range' (s.nextId + 1) rest.length = _
      rw [List.map_append, List.length_cons, List.range'_succ]
      simp

/-! ### Claim theorems -/

/-- C8: construction with `worker_count = 0` coerces the count to 1,
construction with the defaulted argument uses the detected hardware
parallelism, and afterwards `GetThreadCount` reports exactly the (coerced)
number of worker threads. -/
theorem Pool_worker_count_coercion (n h : Nat) (hn : n ≠ 0) :
    GetThreadCount (mkPool 0) = 1 ∧ GetThreadCount (mkPool n) = n ∧
    mkPoolDefault h = mkPool h := by
  refine ⟨rfl, ?_, rfl⟩
  simp [GetThreadCount, mkPool, hn]

theorem Pool_worker_count_coercion_witness :
    GetThreadCount (mkPool 0) = 1 ∧ GetThreadCount (mkPool 4) = 4 ∧
    mkPoolDefault 8 = mkPool 8 :=
  Pool_worker_count_coercion 4 8 (by decide)

/-- C10: in the C++20 variant `Shutdown` clears the worker vector, so
`GetThreadCount` afterwards returns 0; the C++11 variant leaves `workers_`
intact, so `GetThreadCount` keeps returning the construction-time count. -/
theorem Pool_threadCount_after_shutdown (s : ThreadPool) (n : Nat) :
    GetThreadCount (Shutdown20 s) = 0 ∧
    GetThreadCount (Shutdown11 s) = GetThreadCount s ∧
    GetThreadCount (Shutdown11 (mkPool n)) = GetThreadCount (mkPool n) := by
  exact ⟨shutdown20_workers s, shutdown11_workers s, shutdown11_workers _⟩

/-- C3: every `Submit` issued while the stop flag is already set — in
particular after either variant's `Shutdown` — fails synchronously with
the pool-stopped error; no state is produced, so the task is never
enqueued and never executed. -/
theorem Pool_submit_rejected_when_stopped (s u : ThreadPool)
    (body b2 b3 : Except String Int) (h : IsStopped s = true) :
    Submit s body = Except.error SubmitError.poolStopped ∧
    Submit (Shutdown11 u) b2 = Except.error SubmitError.poolStopped ∧
    Submit (Shutdown20 u) b3 = Except.error SubmitError.poolStopped := by
  unfold IsStopped at h
  refine ⟨by simp [Submit, h], ?_, ?_⟩
  · simp [Submit, shutdown11_stopped]
  · simp [Submit, shutdown20_stopped]

theorem Pool_submit_rejected_when_stopped_witness :
    Submit (Shutdown11 (mkPool 1)) (Except.ok 30) =
      Except.error SubmitError.poolStopped ∧
    Submit (Shutdown11 (mkPool 2)) (Except.ok 7) =
      Except.error SubmitError.poolStopped ∧
    Submit (Shutdown20 (mkPool 2)) (Except.error "boom") =
      Except.error SubmitError.poolStopped :=
  Pool_submit_rejected_when_stopped (Shutdown11 (mkPool 1)) (mkPool 2)
    (Except.ok 30) (Except.ok 7) (Except.error "boom") (by decide)

/-- C6: both variants of `Shutdown` set the stop flag and leave a fully
drained, joined pool, and calling `Shutdown` a second time (e.g. from the
destructor after an explicit call) is a no-op on the pool state — it never
re-drains and never re-joins a worker. -/
theorem Pool_shutdown_idempotent (s : ThreadPool) :
    Shutdown11 (Shutdown11 s) = Shutdown11 s ∧
    Shutdown20 (Shutdown20 s) = Shutdown20 s ∧
    IsStopped (Shutdown11 s) = true ∧ IsStopped (Shutdown20 s) = true ∧
    GetPendingTaskCount (Shutdown20 s) = 0 ∧
    (IsStopped s = false → GetPendingTaskCount (Shutdown11 s) = 0) := by
  refine ⟨?_, ?_, shutdown11_stopped s, shutdown20_stopped s, ?_, ?_⟩
  · exact shutdown11_of_stopped _ (shutdown11_stopped s)
  · have h1 : finishAllInflight { Shutdown20 s with stopped := true } =
        Shutdown20 s := by
      rw [setStopped_eq_self _ (shutdown20_stopped s)]
      exact finishAllInflight_eq_self _ (shutdown20_inflight s)
    show { drainQueue (finishAllInflight { Shutdown20 s with stopped := true })
            with workers := 0 } = Shutdown20 s
    rw [h1, drainQueue_eq_self _ (shutdown20_tasks s),
        setWorkers_eq_self _ (shutdown20_workers s)]
  · simp [GetPendingTaskCount, shutdown20_tasks]
  · intro h
    unfold IsStopped at h
    simp [GetPendingTaskCount, shutdown11_tasks_run s h]

theorem Pool_shutdown_idempotent_witness :
    GetPendingTaskCount (Shutdown11 (submitState (mkPool 2) (Except.ok 1))) = 0 :=
  (Pool_shutdown_idempotent (submitState (mkPool 2) (Except.ok 1))).2.2.2.2.2 rfl

/-- C1: a successful `Submit` of a pure callable on a non-stopped pool
enqueues the bound task and hands back its future id; once a worker has
executed the task, `get()` on that future yields exactly the callable's
value. The witness instantiates this at the bound application
`(a, b) ↦ a + b` of 10 and 20, whose invocation returns 30. -/
theorem Pool_submit_get_correct (s : ThreadPool) (v : Int)
    (hs : IsStopped s = false) (hwf : WF s) :
    Submit s (Except.ok v) = Except.ok (submitState s (Except.ok v), s.nextId) ∧
    futureGet (drainQueue (submitState s (Except.ok v))) s.nextId =
      some (Except.ok v) := by
  unfold IsStopped at hs
  constructor
  · simp [Submit, hs]
  · exact futureGet_drainQueue (submitState s (Except.ok v))
      ⟨s.nextId, Except.ok v⟩
      (List.mem_append_right _ (List.mem_singleton_self _))
      (submitState_tasks_nodup s _ hwf)
      (by rw [lookup_submitState_new s _ hwf]; simp)

theorem Pool_submit_get_correct_witness :
    Submit (mkPool 4) (Except.ok (10 + 20)) =
      Except.ok (submitState (mkPool 4) (Except.ok 30), 0) ∧
    futureGet (drainQueue (submitState (mkPool 4) (Except.ok 30))) 0 =
      some (Except.ok 30) :=
  Pool_submit_get_correct (mkPool 4) 30 rfl (by decide)

/-- Concrete two-task pool used by witnesses: one task whose body raises
the exception "boom" and a sibling task that returns 7. -/
def witPool : ThreadPool :=
  submitState (submitState (mkPool 2) (Except.error "boom")) (Except.ok 7)

/-- C4: an exception raised by a task body is captured at the invocation
boundary by the `packaged_task` wrapper and becomes the error result of
that task's own future (`get()` re-raises that specific error); the worker
loop keeps draining past the failing task — it is not terminated — and
every sibling task still resolves to its normal value. -/
theorem Pool_exception_isolation (s : ThreadPool) (tf tg : Task)
    (e : String) (v : Int)
    (hf : tf ∈ s.tasks) (hg : tg ∈ s.tasks)
    (hbf : tf.body = Except.error e) (hbg : tg.body = Except.ok v)
    (hwf : WF s) :
    futureGet (drainQueue s) tf.id = some (Except.error e) ∧
    futureGet (drainQueue s) tg.id = some (Except.ok v) ∧
    GetPendingTaskCount (drainQueue s) = 0 := by
  obtain ⟨hnd, -, -, hpend, -, -, -, -⟩ := hwf
  have h1 := futureGet_drainQueue s tf hf hnd (by rw [hpend tf hf]; simp)
  have h2 := futureGet_drainQueue s tg hg hnd (by rw [hpend tg hg]; simp)
  rw [hbf] at h1
  rw [hbg] at h2
  exact ⟨h1, h2, by simp [GetPendingTaskCount, drainQueue_tasks]⟩

theorem Pool_exception_isolation_witness :
    futureGet (drainQueue witPool) 0 = some (Except.error "boom") ∧
    futureGet (drainQueue witPool) 1 = some (Except.ok 7) ∧
    GetPendingTaskCount (drainQueue witPool) = 0 :=
  Pool_exception_isolation witPool ⟨0, Except.error "boom"⟩ ⟨1, Except.ok 7⟩
    "boom" 7 (by decide) (by decide) rfl rfl (by decide)

/-- C5: the queue is strict FIFO — the workers pop the front while
`Submit` pushes to the back, so execution order equals insertion order for
any state; in particular, on a single-worker pool (where the lone worker
is the whole drain), any sequence of submissions completes in submission
order (future ids 0, 1, 2, … in order). -/
theorem Pool_fifo_order (s : ThreadPool) (bs : List (Except String Int)) :
    (drainQueue s).log = s.log ++ s.tasks.map Task.id ∧
    (drainQueue (submitAll (mkPool 1) bs)).log = List.range bs.length := by
  refine ⟨drainQueue_log s, ?_⟩
  rw [drainQueue_log, submitAll_log, submitAll_tasks_map]
  simp [mkPool, List.range_eq_range']

/-- C2: shutting down a running pool never abandons enqueued work — after
either variant's `Shutdown` returns, the queue is empty, and every task
that was enqueued before the stop signal appears exactly once in the
execution log. -/
theorem Pool_shutdown_no_task_loss (s : ThreadPool) (t : Task)
    (ht : t ∈ s.tasks) (hs : IsStopped s = false) (hwf : WF s) :
    GetPendingTaskCount (Shutdown11 s) = 0 ∧
    (Shutdown11 s).log.count t.id = 1 ∧
    GetPendingTaskCount (Shutdown20 s) = 0 ∧
    (Shutdown20 s).log.count t.id = 1 := by
  unfold IsStopped at hs
  obtain ⟨hnd, -, -, -, -, -, hlog, hinf⟩ := hwf
  have hcount :
      (s.log ++ s.inflight.map Task.id ++ s.tasks.map Task.id).count t.id = 1 := by
    rw [List.count_append, List.count_append,
        List.count_eq_zero.mpr (hlog t ht), List.count_eq_zero.mpr (hinf t ht),
        List.count_eq_one_of_mem hnd (List.mem_map_of_mem Task.id ht)]
  refine ⟨?_, ?_, ?_, ?_⟩
  · simp [GetPendingTaskCount, shutdown11_tasks_run s hs]
  · rw [shutdown11_log_run s hs]
    exact hcount
  · simp [GetPendingTaskCount, shutdown20_tasks]
  · rw [shutdown20_log]
    exact hcount

theorem Pool_shutdown_no_task_loss_witness :
    GetPendingTaskCount (Shutdown11 witPool) = 0 ∧
    (Shutdown11 witPool).log.count 0 = 1 ∧
    GetPendingTaskCount (Shutdown20 witPool) = 0 ∧
    (Shutdown20 witPool).log.count 0 = 1 :=
  Pool_shutdown_no_task_loss witPool ⟨0, Except.error "boom"⟩
    (by decide) rfl (by decide)

/-! ### The WaitForAll invariant: pending futures are backed by work -/

theorem backed_mkPool (n : Nat) : Backed (mkPool n) := by
  intro p hp hpend
  simp [mkPool] at hp

theorem runBody_ne_pending (b : Except String Int) :
    runBody b ≠ FutureState.pending := by
  cases b <;> simp [runBody]

/-- Membership in an updated future map: the entry either carries the new
value or is an untouched entry with a different id. -/
theorem mem_setFuture (fs : FutureMap) (i : Nat) (v : FutureState)
    (p : Nat × FutureState) (hp : p ∈ setFuture fs i v) :
    p.2 = v ∨ (p ∈ fs ∧ p.1 ≠ i) := by
  induction fs with
  | nil => cases hp
  | cons q rest ih =>
      simp only [setFuture, List.map_cons] at hp
      rcases List.mem_cons.mp hp with h | h
      · by_cases hq : q.1 = i
        · rw [if_pos hq] at h
          left
          rw [h]
        · rw [if_neg hq] at h
          right
          rw [h]
          exact ⟨List.mem_cons_self q rest, hq⟩
      · rcases ih h with hv | ⟨hmem, hne⟩
        · exact Or.inl hv
        · exact Or.inr ⟨List.mem_cons_of_mem q hmem, hne⟩

/-- Each pool transition preserves the backing invariant. -/
theorem backed_step (s s₂ : ThreadPool) (h : PoolStep s s₂) (hb : Backed s) :
    Backed s₂ := by
  cases h with
  | submit body hs =>
      intro p hp hpend
      simp only [submitState] at hp ⊢
      rcases List.mem_append.mp hp with h1 | h2
      · rcases hb p h1 hpend with ⟨t, ht, hid⟩ | ⟨t, ht, hid⟩
        · exact Or.inl ⟨t, List.mem_append_left _ ht, hid⟩
        · exact Or.inr ⟨t, ht, hid⟩
      · rcases List.mem_singleton.mp h2 with rfl
        exact Or.inl ⟨⟨s.nextId, body⟩,
          List.mem_append_right _ (List.mem_singleton_self _), rfl⟩
  | take t rest hq =>
      intro p hp hpend
      rcases hb p hp hpend with ⟨u, hu, hid⟩ | ⟨u, hu, hid⟩
      · rw [hq] at hu
        rcases List.mem_cons.mp hu with rfl | hmem
        · exact Or.inr ⟨u, List.mem_append_right _ (List.mem_singleton_self _), hid⟩
        · exact Or.inl ⟨u, hmem, hid⟩
      · exact Or.inr ⟨u, List.mem_append_left _ hu, hid⟩
  | finish t htin =>
      intro p hp hpend
      rcases mem_setFuture s.futures t.id (runBody t.body) p hp with hv | ⟨hmem, hne⟩
      · exact absurd (hv ▸ hpend) (runBody_ne_pending t.body)
      · rcases hb p hmem hpend with ⟨u, hu, hid⟩ | ⟨u, hu, hid⟩
        · exact Or.inl ⟨u, hu, hid⟩
        · have hut : u ≠ t := by
            intro hc
            rw [hc] at hid
            exact hne (hid ▸ rfl)
          exact Or.inr ⟨u, (List.mem_erase_of_ne hut).mpr hu, hid⟩
  | stop =>
      intro p hp hpend
      exact hb p hp hpend

/-- The backing invariant holds in every reachable pool state. -/
theorem backed_reachable (n : Nat) (s : ThreadPool) (h : Reachable n s) :
    Backed s := by
  unfold Reachable at h
  induction h with
  | refl => exact backed_mkPool n
  | tail hsteps hstep ih => exact backed_step _ _ hstep ih

/-- C7: `WaitForAll` blocks exactly until `tasks_.empty() &&
active_tasks_ == 0`; in any reachable pool state where that wait predicate
holds, every future created by an earlier submission is resolved — every
task submitted before the call has finished executing. -/
theorem Pool_waitForAll_drained (n : Nat) (s : ThreadPool)
    (hr : Reachable n s) (hp : waitForAllPred s = true) :
    s.futures.all (fun p => p.2 != FutureState.pending) = true := by
  have hb := backed_reachable n s hr
  have hq : s.tasks = [] ∧ s.inflight = [] := by
    unfold waitForAllPred GetActiveTaskCount at hp
    simp only [Bool.and_eq_true, beq_iff_eq] at hp
    exact ⟨List.isEmpty_iff.mp hp.1, List.length_eq_zero.mp hp.2⟩
  rw [List.all_eq_true]
  intro p hpmem
  rw [bne_iff_ne]
  intro hpend
  rcases hb p hpmem hpend with ⟨t, ht, -⟩ | ⟨t, ht, -⟩
  · rw [hq.1] at ht
    cases ht
  · rw [hq.2] at ht
    cases ht

/-- First witness state: one task submitted to a single-worker pool. -/
def wit7a : ThreadPool := submitState (mkPool 1) (Except.ok 30)

/-- The task of the witness trace. -/
def wit7t : Task := { id := 0, body := Except.ok 30 }

/-- Second witness state: the worker has taken the task in flight. -/
def wit7b : ThreadPool :=
  { wit7a with tasks := [], inflight := wit7a.inflight ++ [wit7t] }

/-- Third witness state: the worker has finished the task. -/
def wit7c : ThreadPool := finishTask wit7b wit7t

theorem Pool_waitForAll_drained_witness :
    wit7c.futures.all (fun p => p.2 != FutureState.pending) = true :=
  Pool_waitForAll_drained 1 wit7c
    (Relation.ReflTransGen.tail
      (Relation.ReflTransGen.tail
        (Relation.ReflTransGen.tail Relation.ReflTransGen.refl
          (PoolStep.submit (mkPool 1) (Except.ok 30) rfl))
        (PoolStep.take wit7a wit7t [] (by decide)))
      (PoolStep.finish wit7b wit7t (by decide)))
    (by decide)

end w5
